import Mathlib

/-!
Shallow embedding of the xillen-risk-scoring-engine core (src/main.py).

Modelling conventions:
* Python floats are modelled as rationals (`ℚ`); all arithmetic appearing in
  the claims is exact at the claimed inputs.
* A field value that may be non-numeric (severity, criticality) is modelled by
  `PyVal`: `PyVal.num q` is a numeric value, `PyVal.malformed` a value on which
  Python's `float()` raises.  `pyFloat` models `float()` (`none` = raises),
  `to_num` models the `to_num` helper of src/main.py (default `0`).
* Code that can raise is modelled in `Option`: a `none` result models an
  uncaught exception propagating out of the call.
* Python dicts keyed by strings are modelled as association lists in insertion
  order; `defaultdict(list)` becomes `pushScore` below.
* Python's `sorted`/`list.sort` (stable, ascending) is modelled with
  `List.insertionSort`, which is also stable; on `List ℚ` the result is the
  unique ascending reordering, so any stable sort is extensionally equal.
-/

/-- A loaded record field that is either numeric or a value `float()` rejects. -/
inductive PyVal where
  | num (q : ℚ)
  | malformed
deriving DecidableEq

/-- Python `float(v)`: `none` models the `ValueError`/`TypeError` raised on a
non-numeric value (src/main.py lines 94-95 use it without a guard). -/
def pyFloat : PyVal → Option ℚ
  | PyVal.num q => some q
  | PyVal.malformed => none

/-- The helper `to_num(v, d=0.0)` of src/main.py lines 23-27: safe coercion,
returning the default `0` when `float(v)` raises.  It is only ever called with
the default, so the default parameter is fixed to `0`. -/
def to_num : PyVal → ℚ
  | PyVal.num q => q
  | PyVal.malformed => 0

/-- An asset record as stored by `AssetStore.load` (src/main.py lines 29-46).
The loader keys the dict by `id` and stores `id` inside the record; the store
is modelled as a list of assets looked up by `id`.  `criticality` is kept as a
`PyVal` so that malformed values reaching `Rule.score` can be expressed. -/
structure Asset where
  id : String
  name : String
  type : String
  tags : List String
  criticality : PyVal
deriving DecidableEq

/-- An event record as stored by `EventStore.load` (src/main.py lines 48-64).
The opaque `data` mapping is never read by the core and is omitted.  `asset`
is `none` when the record has no `asset` key (`e.get('asset')` gives `None`).
An absent `severity` key is modelled as `PyVal.num 0`, the default used at
both of its read sites (`event.get('severity', 0)`). -/
structure Event where
  id : String
  ts : Int
  asset : Option String
  type : String
  severity : PyVal
  labels : List String
deriving DecidableEq

/-- The optional condition keys of a rule's `when` mapping (src/main.py lines
73-90); an absent key (`none`) imposes no constraint. -/
structure When where
  event_type : Option (List String)
  asset_type : Option (List String)
  asset_tags_any : Option (List String)
  event_labels_any : Option (List String)
  event_severity_gte : Option ℚ
deriving DecidableEq

/-- The `calc` mapping of a rule (src/main.py lines 91-108).  Absent numeric
keys default to `0`; the bonus mappings iterate in insertion order and an
absent mapping behaves exactly like an empty one, so both are `List`s. -/
structure Calc where
  base : ℚ
  mul_severity : ℚ
  mul_criticality : ℚ
  if_label_bonus : List (String × ℚ)
  if_tag_bonus : List (String × ℚ)
deriving DecidableEq

/-- A policy rule (src/main.py lines 66-108). -/
structure Rule where
  id : String
  name : String
  weight : ℚ
  when : When
  calc' : Calc
deriving DecidableEq

/-- A policy (src/main.py lines 110-118). -/
structure Policy where
  id : String
  name : String
  version : String
  rules : List Rule
deriving DecidableEq

/-- One element of a `ScoreResult`'s `applied` list: the dict
`{'rule': r.id, 'name': r.name, 'score': val}` of src/main.py line 138. -/
structure Applied where
  rule : String
  name : String
  score : ℚ
deriving DecidableEq

/-- The per-event result dict appended at src/main.py line 140. -/
structure ScoreResult where
  event : String
  asset : String
  score : ℚ
  applied : List Applied
  ts : Int
deriving DecidableEq

/-- The risk engine state (src/main.py lines 120-126): the two stores, the
policy, and the two accumulators `results` and `by_asset` that `__init__`
creates empty and `evaluate` appends to. -/
structure RiskEngine where
  assets : List Asset
  events : List Event
  policy : Policy
  results : List ScoreResult
  by_asset : List (String × List ℚ)
deriving DecidableEq

/-- Membership of a string in a plain Python list, as used by the `in` checks
of `Rule.match`. -/
def strMem (s : String) (l : List String) : Bool :=
  l.contains s

/-- Rule.match of src/main.py lines 73-90 (named `matches` because `match` is
reserved in Lean).  Each condition is checked only when its key is present and
the results are conjoined.  The set intersections of the source are non-empty
iff some element of one list occurs in the other.  The severity condition uses
the safe coercion `to_num`, exactly as the source does. -/
def Rule.matches (r : Rule) (a : Asset) (e : Event) : Bool :=
  (match r.when.event_type with
   | none => true
   | some l => strMem e.type l) &&
  (match r.when.asset_type with
   | none => true
   | some l => strMem a.type l) &&
  (match r.when.asset_tags_any with
   | none => true
   | some l => a.tags.any (fun t => strMem t l)) &&
  (match r.when.event_labels_any with
   | none => true
   | some l => e.labels.any (fun t => strMem t l)) &&
  (match r.when.event_severity_gte with
   | none => true
   | some thr => decide (thr ≤ to_num e.severity))

/-- Sum of the bonus-mapping entries whose key occurs in `keys`
(src/main.py lines 99-106). -/
def bonusSum (m : List (String × ℚ)) (keys : List String) : ℚ :=
  ((m.filter (fun kv => strMem kv.1 keys)).map Prod.snd).sum

/-- Rule.score of src/main.py lines 91-108.  The source applies the raw
`float()` to the event's severity (line 94) and the asset's criticality
(line 95) with no guard, so a malformed value raises (`none`).  On numeric
inputs the weighted total is clamped below at `0` by `max(0.0, ...)`. -/
def Rule.score (r : Rule) (a : Asset) (e : Event) : Option ℚ :=
  match pyFloat e.severity, pyFloat a.criticality with
  | some sev, some crit =>
    some (max 0 ((r.calc'.base + sev * r.calc'.mul_severity +
      crit * r.calc'.mul_criticality +
      (bonusSum r.calc'.if_label_bonus e.labels +
       bonusSum r.calc'.if_tag_bonus a.tags)) * r.weight))
  | _, _ => none

/-- The inner rule loop of `RiskEngine.evaluate` (src/main.py lines 132-139):
walk the policy's rules in order; on a match compute the score (propagating a
raised exception as `none`); record an `applied` entry and add to the running
total only when the score is non-zero. -/
def evalRules : List Rule → Asset → Event → Option (ℚ × List Applied)
  | [], _, _ => some (0, [])
  | r :: rest, a, e =>
    if r.matches a e then
      match r.score a e with
      | none => none
      | some val =>
        match evalRules rest a e with
        | none => none
        | some (t, ap) =>
          if val ≠ 0 then some (val + t, ⟨r.id, r.name, val⟩ :: ap)
          else some (t, ap)
    else evalRules rest a e

/-- AssetStore.get composed with `e.get('asset')` (src/main.py lines 45-46,
129): a missing `asset` key or an id not in the store resolves to `none`.
The dict lookup is the first list entry with the matching id. -/
def assetsGet (A : List Asset) : Option String → Option Asset
  | none => none
  | some aid => A.find? (fun a => a.id == aid)

/-- Append a score to `self.by_asset[aid]` where `by_asset` is a
`defaultdict(list)` (src/main.py lines 126, 141): keys keep first-insertion
order, values keep append order. -/
def pushScore : List (String × List ℚ) → String → ℚ → List (String × List ℚ)
  | [], aid, v => [(aid, [v])]
  | (k, vs) :: rest, aid, v =>
    if k = aid then (k, vs ++ [v]) :: rest
    else (k, vs) :: pushScore rest aid v

/-- The event loop of `RiskEngine.evaluate` (src/main.py lines 127-142),
threading the two accumulators.  An event whose asset does not resolve is
skipped; a raised exception inside the rule loop aborts the whole call
(`none`). -/
def runEvents (A : List Asset) (P : Policy) :
    List Event → List ScoreResult → List (String × List ℚ) →
    Option (List ScoreResult × List (String × List ℚ))
  | [], rs, ba => some (rs, ba)
  | e :: rest, rs, ba =>
    match assetsGet A e.asset with
    | none => runEvents A P rest rs ba
    | some a =>
      match evalRules P.rules a e with
      | none => none
      | some (total, applied) =>
        runEvents A P rest (rs ++ [⟨e.id, a.id, total, applied, e.ts⟩])
          (pushScore ba a.id total)

/-- RiskEngine.evaluate (src/main.py lines 127-142).  The method mutates
`self.results` / `self.by_asset` (appending, never clearing) and returns
`self`; here the updated engine is returned, `none` modelling a raised
exception. -/
def RiskEngine.evaluate (eng : RiskEngine) : Option RiskEngine :=
  (runEvents eng.assets eng.policy eng.events eng.results eng.by_asset).map
    (fun p => { eng with results := p.1, by_asset := p.2 })

/-- Python `max(vals)` on a list of numbers; only ever applied to non-empty
lists (the `if not vals: continue` guard), so the `[]` case is arbitrary. -/
def listMax : List ℚ → ℚ
  | [] => 0
  | v :: rest => rest.foldl (fun acc x => max acc x) v

/-- Python `sorted(vals)` for numeric lists (ascending). -/
def pySorted (vals : List ℚ) : List ℚ :=
  List.insertionSort (fun a b => a ≤ b) vals

/-- RiskEngine.percentile (src/main.py lines 157-169), the linear-interpolation
order statistic.  `int(k)`/`int(f)`/`int(c)` are modelled by `Int.toNat`
(truncation), faithful for the non-negative indices arising when
`0 ≤ p ≤ 100`, the range every claim and call site uses. -/
def percentile (vals : List ℚ) (p : ℚ) : ℚ :=
  let s := pySorted vals
  if s.isEmpty then 0
  else
    let k : ℚ := ((s.length : ℚ) - 1) * (p / 100)
    let f : ℤ := ⌊k⌋
    let c : ℤ := ⌈k⌉
    if f = c then s.getD (⌊k⌋).toNat 0
    else s.getD f.toNat 0 * ((c : ℚ) - k) + s.getD c.toNat 0 * (k - (f : ℚ))

/-- The aggregate record built for one asset (src/main.py lines 148-155). -/
structure AssetAggregate where
  count : ℕ
  sum : ℚ
  avg : ℚ
  max : ℚ
  p95 : ℚ
  p99 : ℚ
deriving DecidableEq

/-- The statistics computed for one non-empty per-asset score list
(src/main.py lines 148-155). -/
def mkAggregate (vals : List ℚ) : AssetAggregate :=
  { count := vals.length
    sum := vals.sum
    avg := vals.sum / (vals.length : ℚ)
    max := listMax vals
    p95 := percentile vals 95
    p99 := percentile vals 99 }

/-- RiskEngine.aggregate (src/main.py lines 143-156): one entry per `by_asset`
key with a non-empty value list, in dict (insertion) order. -/
def RiskEngine.aggregate (eng : RiskEngine) : List (String × AssetAggregate) :=
  eng.by_asset.filterMap
    (fun kv => if kv.2 = [] then none else some (kv.1, mkAggregate kv.2))

/-- One row of the report summary (src/main.py lines 210-221). -/
structure SummaryRow where
  asset : String
  name : String
  type : String
  avg : ℚ
  max : ℚ
  p95 : ℚ
  p99 : ℚ
  count : ℕ
deriving DecidableEq

/-- The unsorted summary rows of `export_report` (src/main.py lines 210-221):
one row per aggregate entry, with the `assets.get(aid) or {...}` fallback for
an id missing from the asset dict. -/
def summaryRows (A : List Asset) (agg : List (String × AssetAggregate)) :
    List SummaryRow :=
  agg.map (fun kv =>
    match A.find? (fun a => a.id == kv.1) with
    | some a => ⟨a.id, a.name, a.type, kv.2.avg, kv.2.max, kv.2.p95, kv.2.p99,
        kv.2.count⟩
    | none => ⟨kv.1, kv.1, "", kv.2.avg, kv.2.max, kv.2.p95, kv.2.p99,
        kv.2.count⟩)

/-- The sort order of `out['summary'].sort(key=lambda x: (-x['max'], -x['avg'],
x['asset']))` (src/main.py line 222): lexicographic on the key triple, i.e.
descending max, then descending avg, then ascending asset id. -/
def rowLe (x y : SummaryRow) : Prop :=
  y.max < x.max ∨
    (x.max = y.max ∧ (y.avg < x.avg ∨ (x.avg = y.avg ∧ x.asset ≤ y.asset)))

instance : DecidableRel rowLe := fun x y => by
  unfold rowLe; infer_instance

/-- The sorted summary of `export_report` (src/main.py lines 201-223); the
rest of the report (file output, timestamps) is I/O plumbing outside the
core contract. -/
def export_summary (eng : RiskEngine) (A : List Asset) : List SummaryRow :=
  List.insertionSort rowLe (summaryRows A eng.aggregate)

/-- The built-in default policy of `bootstrap_policy` (src/main.py lines
171-199). -/
def bootstrap_policy : Policy :=
  { id := "default-policy"
    name := "Default Risk Policy"
    version := "1.0"
    rules :=
      [ { id := "sev-asset"
          name := "Severity and criticality"
          weight := 1
          when := { event_type := some ["alert", "anomaly", "incident"]
                    asset_type := none
                    asset_tags_any := none
                    event_labels_any := none
                    event_severity_gte := none }
          calc' := { base := 0, mul_severity := 60, mul_criticality := 50,
                     if_label_bonus := [], if_tag_bonus := [] } },
        { id := "label-bonus"
          name := "Label bonus"
          weight := 1
          when := { event_type := none
                    asset_type := none
                    asset_tags_any := none
                    event_labels_any :=
                      some ["privilege_escalation", "exfil", "lateral"]
                    event_severity_gte := none }
          calc' := { base := 0, mul_severity := 0, mul_criticality := 0,
                     if_label_bonus :=
                       [("privilege_escalation", 30), ("exfil", 40),
                        ("lateral", 20)],
                     if_tag_bonus := [] } },
        { id := "tag-bonus"
          name := "Asset tag bonus"
          weight := 1
          when := { event_type := none
                    asset_type := none
                    asset_tags_any := some ["prod", "pci", "pii"]
                    event_labels_any := none
                    event_severity_gte := none }
          calc' := { base := 10, mul_severity := 0, mul_criticality := 0,
                     if_label_bonus := [],
                     if_tag_bonus := [("prod", 20), ("pci", 25), ("pii", 25)] } } ] }

/-- Spec-side restatement of the percentile algorithm, written from the words
of spec §4.4 ("sort ascending; let k = (n-1)*p/100; f = floor(k), c = ceil(k);
if f == c return sorted[k] exactly; otherwise sorted[f]*(c-k)+sorted[c]*(k-f);
empty input returns 0"), for comparison with the source-derived `percentile`. -/
def specPercentile (vals : List ℚ) (p : ℚ) : ℚ :=
  match pySorted vals with
  | [] => 0
  | x :: xs =>
    let s := x :: xs
    let n := s.length
    let k : ℚ := ((n : ℚ) - 1) * (p / 100)
    if ⌊k⌋ = ⌈k⌉ then s.getD (⌊k⌋).toNat 0
    else s.getD (⌊k⌋).toNat 0 * ((⌈k⌉ : ℚ) - k) +
      s.getD (⌈k⌉).toNat 0 * (k - (⌊k⌋ : ℚ))

/-!
Concrete instances used by the counterexamples and witnesses below.
-/

/-- A policy with no rules (the smallest policy the engine accepts). -/
def cPolicy : Policy :=
  { id := "p", name := "p", version := "1.0", rules := [] }

/-- A minimal well-formed asset. -/
def cAsset : Asset :=
  { id := "a", name := "a", type := "", tags := [],
    criticality := PyVal.num (1/2) }

/-- A minimal well-formed event resolving to `cAsset`. -/
def cEvent : Event :=
  { id := "e", ts := 0, asset := some "a", type := "",
    severity := PyVal.num (1/2), labels := [] }

/-- A fresh engine over one asset, one event and the empty policy. -/
def cEngine : RiskEngine :=
  { assets := [cAsset], events := [cEvent], policy := cPolicy,
    results := [], by_asset := [] }

/-- The single result the empty policy produces for `cEvent`: total 0, no
applied entries. -/
def cRes : ScoreResult :=
  { event := "e", asset := "a", score := 0, applied := [], ts := 0 }

/-- The engine state after the first `evaluate()` call on `cEngine`. -/
def cE1 : RiskEngine :=
  { cEngine with results := [cRes], by_asset := [("a", [0])] }

/-- The engine state after a second `evaluate()` call: the batch is appended
again. -/
def cE2 : RiskEngine :=
  { cEngine with results := [cRes, cRes], by_asset := [("a", [0, 0])] }

/-- An event whose `asset` id matches no loaded asset. -/
def badEvent : Event :=
  { id := "x", ts := 0, asset := some "zz", type := "",
    severity := PyVal.num (1/2), labels := [] }

/-- A fresh engine whose event list contains one resolvable and one
unresolvable event. -/
def c6Engine : RiskEngine :=
  { assets := [cAsset], events := [cEvent, badEvent], policy := cPolicy,
    results := [], by_asset := [] }

/-- The state after evaluating `c6Engine`: the unresolvable event is
skipped. -/
def c6Out : RiskEngine :=
  { c6Engine with results := [cRes], by_asset := [("a", [0])] }

/-- An empty `when` mapping: matches every asset/event pair. -/
def mWhen : When :=
  { event_type := none, asset_type := none, asset_tags_any := none,
    event_labels_any := none, event_severity_gte := none }

/-- A `calc` that multiplies the event severity by 1. -/
def mCalc : Calc :=
  { base := 0, mul_severity := 1, mul_criticality := 0,
    if_label_bonus := [], if_tag_bonus := [] }

/-- A rule that matches everything and reads the raw severity in `score`. -/
def mRule : Rule :=
  { id := "r1", name := "r1", weight := 1, when := mWhen, calc' := mCalc }

/-- An event whose severity field is non-numeric: `float()` raises on it. -/
def mEvent : Event :=
  { id := "e", ts := 0, asset := some "a", type := "",
    severity := PyVal.malformed, labels := [] }

/-- The same event with a numeric severity. -/
def okEvent : Event := { mEvent with severity := PyVal.num (1/2) }

/-- An asset whose criticality field is non-numeric: `float()` raises on it. -/
def badAsset : Asset := { cAsset with criticality := PyVal.malformed }

/-- A rule with negative weight, to exercise the `max(0.0, ...)` clamp:
the raw total 5 + severity becomes negative after the weight -2. -/
def negRule : Rule :=
  { id := "neg", name := "neg", weight := -2, when := mWhen,
    calc' := { base := 5, mul_severity := 1, mul_criticality := 0,
               if_label_bonus := [], if_tag_bonus := [] } }

/-- A trivially matching rule contributing 1. -/
def rA : Rule :=
  { id := "ra", name := "ra", weight := 1, when := mWhen,
    calc' := { base := 1, mul_severity := 0, mul_criticality := 0,
               if_label_bonus := [], if_tag_bonus := [] } }

/-- A trivially matching rule contributing 2. -/
def rB : Rule :=
  { id := "rb", name := "rb", weight := 1, when := mWhen,
    calc' := { base := 2, mul_severity := 0, mul_criticality := 0,
               if_label_bonus := [], if_tag_bonus := [] } }

/-- The asset of the spec's end-to-end scenario (criticality 0.9 = 9/10). -/
def srv1 : Asset :=
  { id := "srv-1", name := "srv-1", type := "vm", tags := ["prod", "pci"],
    criticality := PyVal.num (9/10) }

/-- The event of the spec's end-to-end scenario (severity 0.8 = 4/5). -/
def ev1 : Event :=
  { id := "e1", ts := 100, asset := some "srv-1", type := "alert",
    severity := PyVal.num (4/5), labels := ["exfil"] }

/-- A fresh engine for the end-to-end scenario under the default policy. -/
def c4Engine : RiskEngine :=
  { assets := [srv1], events := [ev1], policy := bootstrap_policy,
    results := [], by_asset := [] }

/-- The expected result of the end-to-end scenario: total 188 from the three
applied rules (93 = 0.8*60 + 0.9*50, 40 = exfil bonus, 55 = 10 + 20 + 25). -/
def c4Res : ScoreResult :=
  { event := "e1", asset := "srv-1", score := 188,
    applied := [⟨"sev-asset", "Severity and criticality", 93⟩,
                ⟨"label-bonus", "Label bonus", 40⟩,
                ⟨"tag-bonus", "Asset tag bonus", 55⟩],
    ts := 100 }

/-- The engine state after evaluating the end-to-end scenario. -/
def c4Out : RiskEngine :=
  { c4Engine with results := [c4Res], by_asset := [("srv-1", [188])] }

/-- An engine whose per-asset score lists give asset B max 10 / avg 5 and
asset A max 10 / avg 10, with B inserted first, for the sorting scenario. -/
def c9Engine : RiskEngine :=
  { assets := [], events := [], policy := cPolicy,
    results := [], by_asset := [("B", [0, 10]), ("A", [10])] }

/-- The aggregate computed for asset B from scores [0, 10]. -/
def aggB : AssetAggregate :=
  { count := 2, sum := 10, avg := 5, max := 10, p95 := 19/2, p99 := 99/10 }

/-- The aggregate computed for asset A from scores [10]. -/
def aggA : AssetAggregate :=
  { count := 1, sum := 10, avg := 10, max := 10, p95 := 10, p99 := 10 }

/-- The summary row built for asset B (no asset record: fallback naming). -/
def rowB : SummaryRow :=
  { asset := "B", name := "B", type := "", avg := 5, max := 10,
    p95 := 19/2, p99 := 99/10, count := 2 }

/-- The summary row built for asset A (no asset record: fallback naming). -/
def rowA : SummaryRow :=
  { asset := "A", name := "A", type := "", avg := 10, max := 10,
    p95 := 10, p99 := 10, count := 1 }

/-!
General lemmas about the embedded operations, shared by the claim theorems
below.
-/

theorem evalRules_spec (a : Asset) (e : Event) :
    ∀ (rs : List Rule) (t : ℚ) (ap : List Applied),
      evalRules rs a e = some (t, ap) →
      t = (ap.map Applied.score).sum ∧
      (∀ en ∈ ap, en.score ≠ 0) ∧
      List.Sublist (ap.map Applied.rule) (rs.map Rule.id) := by
  intro rs
  induction rs with
  | nil =>
    intro t ap h
    simp [evalRules] at h
    simp [h.1, h.2]
  | cons r rest ih =>
    intro t ap h
    simp only [evalRules] at h
    by_cases hm : r.matches a e
    · rw [if_pos hm] at h
      rcases hv : r.score a e with _ | val <;> rw [hv] at h
      · exact absurd h (by simp)
      · rcases he : evalRules rest a e with _ | p <;> rw [he] at h <;>
          dsimp only at h
        · exact absurd h (by simp)
        · obtain ⟨t0, ap0⟩ := p
          obtain ⟨hsum, hnz, hsub⟩ := ih t0 ap0 he
          by_cases h0 : val ≠ 0
          · rw [if_pos h0] at h
            simp only [Option.some.injEq, Prod.mk.injEq] at h
            obtain ⟨ht, hap⟩ := h
            subst ht; subst hap
            refine ⟨by simp [hsum], ?_, ?_⟩
            · intro en hen
              rcases List.mem_cons.mp hen with h1 | h1
              · simp [h1, h0]
              · exact hnz en h1
            · simpa using List.Sublist.cons₂ r.id hsub
          · rw [if_neg h0] at h
            simp only [Option.some.injEq, Prod.mk.injEq] at h
            obtain ⟨ht, hap⟩ := h
            subst ht; subst hap
            exact ⟨hsum, hnz, hsub.cons r.id⟩
    · rw [if_neg hm] at h
      obtain ⟨hsum, hnz, hsub⟩ := ih t ap h
      exact ⟨hsum, hnz, hsub.cons r.id⟩

theorem evalRules_filter_sum (a : Asset) (e : Event) :
    ∀ (rs : List Rule) (t : ℚ) (ap : List Applied),
      evalRules rs a e = some (t, ap) →
      t = ((rs.filter (fun r => r.matches a e)).map
        (fun r => (r.score a e).getD 0)).sum := by
  intro rs
  induction rs with
  | nil => intro t ap h; simp [evalRules] at h; simp [h.1]
  | cons r rest ih =>
    intro t ap h
    simp only [evalRules] at h
    by_cases hm : r.matches a e
    · rw [if_pos hm] at h
      rcases hv : r.score a e with _ | val <;> rw [hv] at h
      · exact absurd h (by simp)
      · rcases he : evalRules rest a e with _ | p <;> rw [he] at h <;>
          dsimp only at h
        · exact absurd h (by simp)
        · obtain ⟨t0, ap0⟩ := p
          have hrec := ih t0 ap0 he
          by_cases h0 : val ≠ 0
          · rw [if_pos h0] at h
            simp only [Option.some.injEq, Prod.mk.injEq] at h
            rw [List.filter_cons_of_pos (by simpa using hm)]
            simp [hv, ← h.1, hrec]
          · rw [if_neg h0] at h
            simp only [Option.some.injEq, Prod.mk.injEq] at h
            rw [List.filter_cons_of_pos (by simpa using hm)]
            push_neg at h0
            simp [hv, ← h.1, hrec, h0]
    · rw [if_neg hm] at h
      rw [List.filter_cons_of_neg (by simpa using hm)]
      exact ih t ap h

theorem runEvents_shift (A : List Asset) (P : Policy) :
    ∀ (es : List Event) (rs0 rs : List ScoreResult)
      (ba : List (String × List ℚ)) (b : List ScoreResult)
      (ba' : List (String × List ℚ)),
      runEvents A P es rs0 ba = some (b, ba') →
      runEvents A P es (rs ++ rs0) ba = some (rs ++ b, ba') := by
  intro es
  induction es with
  | nil =>
    intro rs0 rs ba b ba' h
    simp [runEvents] at h ⊢
    exact ⟨h.1 ▸ rfl, h.2⟩
  | cons e rest ih =>
    intro rs0 rs ba b ba' h
    simp only [runEvents] at h ⊢
    rcases ha : assetsGet A e.asset with _ | a <;> rw [ha] at h <;>
      dsimp only at h ⊢
    · exact ih rs0 rs ba b ba' h
    · rcases hv : evalRules P.rules a e with _ | ⟨total, applied⟩ <;>
        rw [hv] at h <;> dsimp only at h ⊢
      · exact absurd h (by simp)
      · rw [List.append_assoc]
        exact ih (rs0 ++ [⟨e.id, a.id, total, applied, e.ts⟩]) rs
          (pushScore ba a.id total) b ba' h

theorem runEvents_split (A : List Asset) (P : Policy) :
    ∀ (es : List Event) (rs : List ScoreResult)
      (ba : List (String × List ℚ)) (rs' : List ScoreResult)
      (ba' : List (String × List ℚ)),
      runEvents A P es rs ba = some (rs', ba') →
      ∃ b, runEvents A P es [] ba = some (b, ba') ∧ rs' = rs ++ b := by
  intro es
  induction es with
  | nil =>
    intro rs ba rs' ba' h
    simp [runEvents] at h
    exact ⟨[], by simp [runEvents, h.2], by simp [h.1]⟩
  | cons e rest ih =>
    intro rs ba rs' ba' h
    simp only [runEvents] at h ⊢
    rcases ha : assetsGet A e.asset with _ | a <;> rw [ha] at h <;>
      dsimp only at h ⊢
    · exact ih rs ba rs' ba' h
    · rcases hv : evalRules P.rules a e with _ | ⟨total, applied⟩ <;>
        rw [hv] at h <;> dsimp only at h ⊢
      · exact absurd h (by simp)
      · obtain ⟨b, hb, hrs⟩ := ih _ _ _ _ h
        refine ⟨⟨e.id, a.id, total, applied, e.ts⟩ :: b, ?_, ?_⟩
        · simpa using runEvents_shift A P rest []
            [⟨e.id, a.id, total, applied, e.ts⟩] (pushScore ba a.id total)
            b ba' hb
        · simp [hrs]

theorem runEvents_fst (A : List Asset) (P : Policy) :
    ∀ (es : List Event) (rs : List ScoreResult)
      (ba ba2 : List (String × List ℚ)),
      (runEvents A P es rs ba).map Prod.fst =
        (runEvents A P es rs ba2).map Prod.fst := by
  intro es
  induction es with
  | nil => intro rs ba ba2; simp [runEvents]
  | cons e rest ih =>
    intro rs ba ba2
    simp only [runEvents]
    rcases ha : assetsGet A e.asset with _ | a <;> dsimp only
    · exact ih rs ba ba2
    · rcases hv : evalRules P.rules a e with _ | ⟨total, applied⟩
      · rfl
      · dsimp only
        exact ih _ _ _

theorem runEvents_length (A : List Asset) (P : Policy) :
    ∀ (es : List Event) (rs : List ScoreResult)
      (ba : List (String × List ℚ)) (rs' : List ScoreResult)
      (ba' : List (String × List ℚ)),
      runEvents A P es rs ba = some (rs', ba') →
      rs'.length = rs.length +
        (es.filter (fun e => (assetsGet A e.asset).isSome)).length := by
  intro es
  induction es with
  | nil =>
    intro rs ba rs' ba' h
    simp [runEvents] at h
    simp [h.1]
  | cons e rest ih =>
    intro rs ba rs' ba' h
    simp only [runEvents] at h
    rcases ha : assetsGet A e.asset with _ | a <;> rw [ha] at h <;>
      dsimp only at h
    · rw [List.filter_cons_of_neg (by simp [ha])]
      exact ih rs ba rs' ba' h
    · rcases hv : evalRules P.rules a e with _ | ⟨total, applied⟩ <;>
        rw [hv] at h <;> dsimp only at h
      · exact absurd h (by simp)
      · rw [List.filter_cons_of_pos (by simp [ha])]
        have h2 := ih _ _ _ _ h
        simp only [List.length_append, List.length_cons, List.length_nil]
          at h2 ⊢
        omega

theorem runEvents_origin (A : List Asset) (P : Policy) :
    ∀ (es : List Event) (rs : List ScoreResult)
      (ba : List (String × List ℚ)) (rs' : List ScoreResult)
      (ba' : List (String × List ℚ)),
      runEvents A P es rs ba = some (rs', ba') →
      ∀ r ∈ rs', r ∈ rs ∨ ∃ e a, e ∈ es ∧ assetsGet A e.asset = some a ∧
        ∃ t ap, evalRules P.rules a e = some (t, ap) ∧
          r = ⟨e.id, a.id, t, ap, e.ts⟩ := by
  intro es
  induction es with
  | nil =>
    intro rs ba rs' ba' h r hr
    simp [runEvents] at h
    exact Or.inl (h.1 ▸ hr)
  | cons e rest ih =>
    intro rs ba rs' ba' h r hr
    simp only [runEvents] at h
    rcases ha : assetsGet A e.asset with _ | a <;> rw [ha] at h <;>
      dsimp only at h
    · rcases ih rs ba rs' ba' h r hr with h1 | ⟨e0, a0, he0, hres, rest0⟩
      · exact Or.inl h1
      · exact Or.inr ⟨e0, a0, List.mem_cons_of_mem e he0, hres, rest0⟩
    · rcases hv : evalRules P.rules a e with _ | ⟨total, applied⟩ <;>
        rw [hv] at h <;> dsimp only at h
      · exact absurd h (by simp)
      · rcases ih _ _ _ _ h r hr with h1 | ⟨e0, a0, he0, hres, rest0⟩
        · rcases List.mem_append.mp h1 with h2 | h2
          · exact Or.inl h2
          · refine Or.inr ⟨e, a, List.mem_cons_self e rest, ha, total, applied,
              hv, ?_⟩
            simpa using h2
        · exact Or.inr ⟨e0, a0, List.mem_cons_of_mem e he0, hres, rest0⟩

theorem pushScore_keys (aid : String) (v : ℚ) :
    ∀ (ba : List (String × List ℚ)) (k : String),
      (k ∈ (pushScore ba aid v).map Prod.fst ↔ k ∈ ba.map Prod.fst ∨ k = aid) := by
  intro ba
  induction ba with
  | nil => intro k; simp [pushScore]
  | cons kv rest ih =>
    intro k
    obtain ⟨k0, vs⟩ := kv
    simp only [pushScore]
    by_cases h0 : k0 = aid
    · rw [if_pos h0]
      subst h0
      simp
      tauto
    · rw [if_neg h0]
      simp [ih]
      tauto

theorem pushScore_vals_ne (aid : String) (v : ℚ) :
    ∀ (ba : List (String × List ℚ)),
      (∀ kv ∈ ba, kv.2 ≠ []) →
      ∀ kv ∈ pushScore ba aid v, kv.2 ≠ [] := by
  intro ba
  induction ba with
  | nil => intro _ kv hkv; simp [pushScore] at hkv; simp [hkv]
  | cons kv0 rest ih =>
    intro hne kv hkv
    obtain ⟨k0, vs⟩ := kv0
    simp only [pushScore] at hkv
    by_cases h0 : k0 = aid
    · rw [if_pos h0] at hkv
      rcases List.mem_cons.mp hkv with h1 | h1
      · simp [h1]
      · exact hne kv (List.mem_cons_of_mem _ h1)
    · rw [if_neg h0] at hkv
      rcases List.mem_cons.mp hkv with h1 | h1
      · exact h1 ▸ hne (k0, vs) (List.mem_cons_self _ _)
      · exact ih (fun x hx => hne x (List.mem_cons_of_mem _ hx)) kv h1

theorem runEvents_keys (A : List Asset) (P : Policy) :
    ∀ (es : List Event) (rs : List ScoreResult)
      (ba : List (String × List ℚ)) (rs' : List ScoreResult)
      (ba' : List (String × List ℚ)),
      runEvents A P es rs ba = some (rs', ba') →
      (∀ k, k ∈ ba.map Prod.fst ↔ k ∈ rs.map ScoreResult.asset) →
      ∀ k, k ∈ ba'.map Prod.fst ↔ k ∈ rs'.map ScoreResult.asset := by
  intro es
  induction es with
  | nil =>
    intro rs ba rs' ba' h hinv k
    simp [runEvents] at h
    rw [← h.1, ← h.2]
    exact hinv k
  | cons e rest ih =>
    intro rs ba rs' ba' h hinv k
    simp only [runEvents] at h
    rcases ha : assetsGet A e.asset with _ | a <;> rw [ha] at h <;>
      dsimp only at h
    · exact ih rs ba rs' ba' h hinv k
    · rcases hv : evalRules P.rules a e with _ | ⟨total, applied⟩ <;>
        rw [hv] at h <;> dsimp only at h
      · exact absurd h (by simp)
      · refine ih _ _ _ _ h ?_ k
        intro k0
        rw [pushScore_keys]
        simp only [List.map_append, List.mem_append, hinv k0]
        simp

theorem runEvents_vals_ne (A : List Asset) (P : Policy) :
    ∀ (es : List Event) (rs : List ScoreResult)
      (ba : List (String × List ℚ)) (rs' : List ScoreResult)
      (ba' : List (String × List ℚ)),
      runEvents A P es rs ba = some (rs', ba') →
      (∀ kv ∈ ba, kv.2 ≠ []) →
      ∀ kv ∈ ba', kv.2 ≠ [] := by
  intro es
  induction es with
  | nil =>
    intro rs ba rs' ba' h hne
    simp [runEvents] at h
    exact h.2 ▸ hne
  | cons e rest ih =>
    intro rs ba rs' ba' h hne
    simp only [runEvents] at h
    rcases ha : assetsGet A e.asset with _ | a <;> rw [ha] at h <;>
      dsimp only at h
    · exact ih rs ba rs' ba' h hne
    · rcases hv : evalRules P.rules a e with _ | ⟨total, applied⟩ <;>
        rw [hv] at h <;> dsimp only at h
      · exact absurd h (by simp)
      · exact ih _ _ _ _ h (pushScore_vals_ne a.id total ba hne)

theorem assetsGet_self (A : List Asset) (s : Option String) (a : Asset)
    (h : assetsGet A s = some a) : assetsGet A (some a.id) = some a := by
  cases s with
  | none => simp [assetsGet] at h
  | some aid =>
    simp only [assetsGet] at h ⊢
    have hid := List.find?_some h
    have heq : a.id = aid := by simpa using hid
    rw [heq]
    exact h

theorem aggregate_fst (ba : List (String × List ℚ))
    (hne : ∀ kv ∈ ba, kv.2 ≠ []) :
    (ba.filterMap
      (fun kv => if kv.2 = [] then none else some (kv.1, mkAggregate kv.2))).map
        Prod.fst = ba.map Prod.fst := by
  induction ba with
  | nil => simp
  | cons kv rest ih =>
    have h1 : kv.2 ≠ [] := hne kv (List.mem_cons_self _ _)
    rw [List.filterMap_cons]
    rw [if_neg h1]
    simp only [List.map_cons]
    rw [ih (fun x hx => hne x (List.mem_cons_of_mem _ hx))]

theorem percentile_nil (p : ℚ) : percentile [] p = 0 := by
  simp [percentile, pySorted]

theorem percentile_single (x p : ℚ) : percentile [x] p = x := by
  have hs : pySorted [x] = [x] := by
    simp [pySorted, List.insertionSort]
  simp [percentile, hs]

theorem percentile_four : percentile [1, 2, 3, 4] 50 = 5 / 2 := by
  have hs : pySorted [1, 2, 3, 4] = [1, 2, 3, 4] := by
    norm_num [pySorted, List.insertionSort, List.orderedInsert]
  have hk : ((((pySorted [1, 2, 3, 4]).length : ℚ) - 1) * (50 / 100) : ℚ) = 3 / 2 := by
    rw [hs]; norm_num
  have hf : (⌊(3 / 2 : ℚ)⌋ : ℤ) = 1 := by norm_num
  have hc : (⌈(3 / 2 : ℚ)⌉ : ℤ) = 2 := by
    rw [Int.ceil_eq_iff]
    norm_num
  simp only [percentile, hk, hs, hf, hc]
  norm_num [hc, show Int.toNat 2 = 2 from rfl]

theorem percentile_eq_spec (vals : List ℚ) (p : ℚ) :
    percentile vals p = specPercentile vals p := by
  unfold percentile specPercentile
  cases hs : pySorted vals with
  | nil => simp
  | cons x xs => simp

theorem rowLe_trans (a b c : SummaryRow) (hab : rowLe a b) (hbc : rowLe b c) :
    rowLe a c := by
  unfold rowLe at hab hbc ⊢
  rcases hab with h1 | ⟨h1, h2⟩
  · rcases hbc with g1 | ⟨g1, g2⟩
    · exact Or.inl (lt_trans g1 h1)
    · exact Or.inl (g1 ▸ h1)
  · rcases hbc with g1 | ⟨g1, g2⟩
    · exact Or.inl (h1 ▸ g1)
    · refine Or.inr ⟨h1.trans g1, ?_⟩
      rcases h2 with h3 | ⟨h3, h4⟩
      · rcases g2 with g3 | ⟨g3, g4⟩
        · exact Or.inl (lt_trans g3 h3)
        · exact Or.inl (g3 ▸ h3)
      · rcases g2 with g3 | ⟨g3, g4⟩
        · exact Or.inl (h3 ▸ g3)
        · exact Or.inr ⟨h3.trans g3, le_trans h4 g4⟩

theorem rowLe_total (a b : SummaryRow) : rowLe a b ∨ rowLe b a := by
  unfold rowLe
  rcases lt_trichotomy a.max b.max with h | h | h
  · right; left; exact h
  · rcases lt_trichotomy a.avg b.avg with h2 | h2 | h2
    · right; right; exact ⟨h.symm, Or.inl h2⟩
    · rcases le_total a.asset b.asset with h3 | h3
      · left; right; exact ⟨h, Or.inr ⟨h2, h3⟩⟩
      · right; right; exact ⟨h.symm, Or.inr ⟨h2.symm, h3⟩⟩
    · left; right; exact ⟨h, Or.inl h2⟩
  · left; left; exact h

theorem export_summary_sorted (eng : RiskEngine) (A : List Asset) :
    List.Sorted rowLe (export_summary eng A) := by
  haveI : IsTotal SummaryRow rowLe := ⟨rowLe_total⟩
  haveI : IsTrans SummaryRow rowLe := ⟨rowLe_trans⟩
  exact List.sorted_insertionSort rowLe (summaryRows A eng.aggregate)

/-!
Helper theorems about concrete evaluations, and the claim theorems.
-/

/-- Unfolding of a successful `RiskEngine.evaluate` call into its
`runEvents` run. -/
theorem evaluate_some (eng e' : RiskEngine) (h : eng.evaluate = some e') :
    ∃ b ba, runEvents eng.assets eng.policy eng.events eng.results
        eng.by_asset = some (b, ba) ∧
      e' = { eng with results := b, by_asset := ba } := by
  unfold RiskEngine.evaluate at h
  obtain ⟨p, hp, he⟩ := Option.map_eq_some'.mp h
  exact ⟨p.1, p.2, by simpa using hp, he.symm⟩

/-- Claim C1 counterexample: on the concrete engine `cEngine` (one asset, one
event, empty-rule policy), the second `evaluate()` call yields a results list
different from the first call's — the internal `results` list is NOT rebuilt
on each call, it accumulates, refuting the claim as stated. -/
theorem claimC1_cex :
    cEngine.evaluate = some cE1 ∧ cE1.evaluate = some cE2 ∧
      cE2.results ≠ cE1.results := by
  refine ⟨rfl, rfl, ?_⟩
  intro h
  have h2 := congrArg List.length h
  simp [cE1, cE2] at h2

/-- Claim C1 (amended): `results` and `by_asset` are initialised in
`__init__`, not cleared by `evaluate()`, so a second `evaluate()` call on the
same engine appends a second identical batch: starting from a fresh results
list, after the second call the results list equals the first call's list
concatenated with itself.  Evaluation itself is deterministic (the same batch
is produced both times). -/
theorem claimC1 (eng : RiskEngine) (h0 : eng.results = [])
    (e1 e2 : RiskEngine) (h1 : eng.evaluate = some e1)
    (h2 : e1.evaluate = some e2) :
    e2.results = e1.results ++ e1.results := by
  obtain ⟨b1, ba1, hrun1, he1⟩ := evaluate_some eng e1 h1
  subst he1
  obtain ⟨b2, ba2, hrun2, he2⟩ := evaluate_some _ e2 h2
  subst he2
  rw [h0] at hrun1
  dsimp only at hrun2 ⊢
  obtain ⟨b, hb, hsplit⟩ :=
    runEvents_split eng.assets eng.policy eng.events b1 ba1 b2 ba2 hrun2
  have hf := runEvents_fst eng.assets eng.policy eng.events [] ba1 eng.by_asset
  rw [hb, hrun1] at hf
  simp only [Option.map_some'] at hf
  have hbb : b = b1 := by
    simpa using congrArg (fun o => o) hf
  rw [hsplit, hbb]

/-- Claim C1 witness: the amended statement instantiated on `cEngine`. -/
theorem claimC1_wit : cE2.results = cE1.results ++ cE1.results :=
  claimC1 cEngine rfl cE1 cE2 rfl rfl

/-- Claim C2 counterexample: `mRule` (empty `when`, severity multiplier 1)
matches `mEvent`, whose severity is non-numeric; `Rule.score` then raises
(`none`) because line 94 of src/main.py applies the raw `float()` to the
severity instead of the safe `to_num` coercion — score does NOT silently
coerce the malformed value to 0, refuting the claim as stated. -/
theorem claimC2_cex :
    mRule.matches cAsset mEvent = true ∧ mRule.score cAsset mEvent = none :=
  ⟨rfl, rfl⟩

/-- Claim C2 (amended): `Rule.match` never raises — it coerces a non-numeric
severity to 0 via `to_num`, so a malformed severity behaves exactly like
severity 0 there; `Rule.score`, however, applies the raw `float()` to the
event's severity (line 94) and the asset's criticality (line 95): it returns
a value exactly when both fields are numeric, and raises (returns `none`)
whenever the severity is non-numeric, and likewise whenever the criticality
is non-numeric. -/
theorem claimC2 (r : Rule) (a : Asset) (e : Event) :
    (r.matches a { e with severity := PyVal.malformed } =
      r.matches a { e with severity := PyVal.num 0 }) ∧
    ((r.score a e).isSome = true ↔
      ((pyFloat e.severity).isSome = true ∧
        (pyFloat a.criticality).isSome = true)) ∧
    (e.severity = PyVal.malformed → r.score a e = none) ∧
    (a.criticality = PyVal.malformed → r.score a e = none) := by
  refine ⟨rfl, ?_, ?_, ?_⟩
  · rcases hs : pyFloat e.severity with _ | sev <;>
      rcases hc : pyFloat a.criticality with _ | crit <;>
      simp [Rule.score, hs, hc]
  · intro h
    simp [Rule.score, h, pyFloat]
  · intro h
    rcases hs : pyFloat e.severity with _ | sev <;>
      simp [Rule.score, hs, h, pyFloat]

/-- Claim C2 witness: the amended statement instantiated on `mRule` with
`okEvent` (numeric severity, score returns), `mEvent` (malformed severity,
score raises) and `badAsset` (malformed criticality, score raises). -/
theorem claimC2_wit :
    (mRule.matches cAsset { mEvent with severity := PyVal.malformed } =
      mRule.matches cAsset { mEvent with severity := PyVal.num 0 }) ∧
    (mRule.score cAsset okEvent).isSome = true ∧
    mRule.score cAsset mEvent = none ∧
    mRule.score badAsset okEvent = none :=
  ⟨(claimC2 mRule cAsset mEvent).1,
   (claimC2 mRule cAsset okEvent).2.1.mpr ⟨rfl, rfl⟩,
   (claimC2 mRule cAsset mEvent).2.2.1 rfl,
   (claimC2 mRule badAsset okEvent).2.2.2 rfl⟩

/-- Claim C3: percentile is the linear-interpolation order statistic — the
empty list gives 0 for every p, a singleton gives its element for every p,
percentile([1,2,3,4], 50) = 2.5, and for p in [0,100] the source formula
coincides with the spec's formula (`specPercentile`). -/
theorem claimC3 :
    (∀ p : ℚ, percentile [] p = 0) ∧
    (∀ x p : ℚ, percentile [x] p = x) ∧
    percentile [1, 2, 3, 4] 50 = 5 / 2 ∧
    (∀ (vals : List ℚ) (p : ℚ), 0 ≤ p → p ≤ 100 →
      percentile vals p = specPercentile vals p) :=
  ⟨percentile_nil, percentile_single, percentile_four,
   fun vals p _ _ => percentile_eq_spec vals p⟩

/-- Claim C3 witness: the spec-formula conjunct instantiated at
vals = [1,2,3,4], p = 50. -/
theorem claimC3_wit :
    (0 : ℚ) ≤ 50 ∧ (50 : ℚ) ≤ 100 ∧
      percentile [1, 2, 3, 4] 50 = specPercentile [1, 2, 3, 4] 50 :=
  ⟨by norm_num, by norm_num,
   claimC3.2.2.2 [1, 2, 3, 4] 50 (by norm_num) (by norm_num)⟩

/-- The end-to-end scenario evaluates to exactly `c4Out`. -/
theorem c4_evaluate : c4Engine.evaluate = some c4Out := by
  simp [c4Engine, c4Out, c4Res, RiskEngine.evaluate, runEvents, evalRules,
    Rule.matches, Rule.score, assetsGet, pushScore, bootstrap_policy, strMem,
    bonusSum, to_num, pyFloat, srv1, ev1]
  norm_num

/-- Claim C4: evaluating event e1 (severity 0.8, label exfil) against asset
srv-1 (criticality 0.9, tags prod/pci) under the built-in default policy
produces exactly one ScoreResult with total 188 and exactly 3 applied entries,
scoring 93 (= 0.8*60 + 0.9*50), 40 (exfil bonus) and 55 (= 10 + 20 + 25). -/
theorem claimC4 :
    c4Engine.evaluate = some c4Out ∧
    c4Out.results.map (fun r => (r.score, r.applied.length)) = [(188, 3)] ∧
    c4Out.results.map (fun r => r.applied.map Applied.score) =
      [[93, 40, 55]] :=
  ⟨c4_evaluate, rfl, rfl⟩

/-- Claim C5: whenever `Rule.score` returns a value, that value is ≥ 0 — the
weighted total (including any negative base, multipliers, bonuses or weight)
is clamped below at 0 by `max(0.0, s * weight)`. -/
theorem claimC5 (r : Rule) (a : Asset) (e : Event) (q : ℚ)
    (h : r.score a e = some q) : 0 ≤ q := by
  unfold Rule.score at h
  rcases hs : pyFloat e.severity with _ | sev <;> rw [hs] at h
  · simp at h
  · rcases hc : pyFloat a.criticality with _ | crit <;> rw [hc] at h
    · simp at h
    · simp only [Option.some.injEq] at h
      subst h
      exact le_max_left 0 _

/-- The negative-weight rule's raw total 11/2 is scaled to -11 and clamped
to 0. -/
theorem negRule_score : negRule.score cAsset cEvent = some 0 := by
  simp [Rule.score, negRule, cAsset, cEvent, pyFloat, bonusSum]
  norm_num

/-- Claim C5 witness: the clamping law instantiated on the negative-weight
rule `negRule`. -/
theorem claimC5_wit : negRule.score cAsset cEvent = some 0 ∧ (0 : ℚ) ≤ 0 :=
  ⟨negRule_score, claimC5 negRule cAsset cEvent 0 negRule_score⟩

/-- Claim C6: starting from a fresh engine, every produced ScoreResult's
asset id resolves in the asset store, the number of results equals the number
of events whose asset resolves (unresolvable events are skipped silently and
produce nothing), and every per-asset aggregate key resolves as well. -/
theorem claimC6 (eng : RiskEngine) (h0 : eng.results = [])
    (h1 : eng.by_asset = []) (e' : RiskEngine) (h : eng.evaluate = some e') :
    (∀ r ∈ e'.results, ∃ a, assetsGet eng.assets (some r.asset) = some a) ∧
    e'.results.length = (eng.events.filter
      (fun e => (assetsGet eng.assets e.asset).isSome)).length ∧
    (∀ k ∈ e'.by_asset.map Prod.fst,
      ∃ a, assetsGet eng.assets (some k) = some a) := by
  obtain ⟨b, ba, hrun, he⟩ := evaluate_some eng e' h
  subst he
  rw [h0, h1] at hrun
  dsimp only
  have hres : ∀ r ∈ b, ∃ a, assetsGet eng.assets (some r.asset) = some a := by
    intro r hr
    rcases runEvents_origin eng.assets eng.policy eng.events [] [] b ba hrun
        r hr with h2 | ⟨e0, a0, _, hget, _, _, _, hq⟩
    · simp at h2
    · subst hq
      exact ⟨a0, assetsGet_self eng.assets e0.asset a0 hget⟩
  refine ⟨hres, ?_, ?_⟩
  · simpa using runEvents_length eng.assets eng.policy eng.events [] [] b ba hrun
  · intro k hk
    have hiff := runEvents_keys eng.assets eng.policy eng.events [] [] b ba
      hrun (by simp) k
    have hk2 := hiff.mp hk
    obtain ⟨r, hr, hrk⟩ := List.mem_map.mp hk2
    obtain ⟨a, ha⟩ := hres r hr
    exact ⟨a, hrk ▸ ha⟩

/-- Claim C6 witness: on `c6Engine` (one resolvable, one unresolvable event)
exactly one result is produced. -/
theorem claimC6_wit :
    c6Engine.evaluate = some c6Out ∧
      c6Out.results.length = (c6Engine.events.filter
        (fun e => (assetsGet c6Engine.assets e.asset).isSome)).length :=
  ⟨rfl, (claimC6 c6Engine rfl rfl c6Out rfl).2.1⟩

/-- Claim C7: the per-event total score computed by the rule loop is invariant
under any permutation of the rule list (summation is commutative); only the
order of `applied` entries can change. -/
theorem claimC7 (rules1 rules2 : List Rule) (a : Asset) (e : Event)
    (t1 t2 : ℚ) (ap1 ap2 : List Applied)
    (hperm : List.Perm rules1 rules2)
    (h1 : evalRules rules1 a e = some (t1, ap1))
    (h2 : evalRules rules2 a e = some (t2, ap2)) : t1 = t2 := by
  rw [evalRules_filter_sum a e rules1 t1 ap1 h1,
      evalRules_filter_sum a e rules2 t2 ap2 h2]
  exact List.Perm.sum_eq ((hperm.filter _).map _)

/-- The rule pair [rA, rB] scores 1 then 2, total 3. -/
theorem evalRules_rArB :
    evalRules [rA, rB] cAsset cEvent =
      some (3, [⟨"ra", "ra", 1⟩, ⟨"rb", "rb", 2⟩]) := by
  simp [evalRules, Rule.matches, Rule.score, rA, rB, mWhen, cAsset, cEvent,
    pyFloat, bonusSum]
  norm_num

/-- The swapped rule pair [rB, rA] scores 2 then 1, total 3. -/
theorem evalRules_rBrA :
    evalRules [rB, rA] cAsset cEvent =
      some (3, [⟨"rb", "rb", 2⟩, ⟨"ra", "ra", 1⟩]) := by
  simp [evalRules, Rule.matches, Rule.score, rA, rB, mWhen, cAsset, cEvent,
    pyFloat, bonusSum]
  norm_num

/-- Claim C7 witness: permutation invariance instantiated on the swapped pair
[rA, rB] / [rB, rA], both totalling 3. -/
theorem claimC7_wit : (3 : ℚ) = 3 :=
  claimC7 [rA, rB] [rB, rA] cAsset cEvent 3 3
    [⟨"ra", "ra", 1⟩, ⟨"rb", "rb", 2⟩] [⟨"rb", "rb", 2⟩, ⟨"ra", "ra", 1⟩]
    (List.Perm.swap rB rA []) evalRules_rArB evalRules_rBrA

/-- Claim C8: after evaluating a fresh engine, the key set of `aggregate()`'s
output equals exactly the set of asset ids appearing in the ScoreResult list —
assets with at least one recorded score appear, assets with none are omitted
entirely. -/
theorem claimC8 (eng : RiskEngine) (h0 : eng.results = [])
    (h1 : eng.by_asset = []) (e' : RiskEngine) (h : eng.evaluate = some e') :
    ∀ aid, aid ∈ (RiskEngine.aggregate e').map Prod.fst ↔
      aid ∈ e'.results.map ScoreResult.asset := by
  obtain ⟨b, ba, hrun, he⟩ := evaluate_some eng e' h
  subst he
  rw [h0, h1] at hrun
  intro aid
  have hne : ∀ kv ∈ ba, kv.2 ≠ [] :=
    runEvents_vals_ne eng.assets eng.policy eng.events [] [] b ba hrun
      (by simp)
  have hfst := aggregate_fst ba hne
  have hiff := runEvents_keys eng.assets eng.policy eng.events [] [] b ba
    hrun (by simp) aid
  unfold RiskEngine.aggregate
  dsimp only
  rw [hfst]
  exact hiff

/-- Claim C8 witness: the key-set equivalence instantiated on `c6Engine`'s
output at asset id "a". -/
theorem claimC8_wit :
    ("a" ∈ (RiskEngine.aggregate c6Out).map Prod.fst ↔
      "a" ∈ c6Out.results.map ScoreResult.asset) :=
  claimC8 c6Engine rfl rfl c6Out rfl "a"

/-- The 95th percentile of [0, 10] interpolates to 9.5. -/
theorem percentile_BA95 : percentile [0, 10] 95 = 19/2 := by
  have hs : pySorted [0, 10] = [0, 10] := by
    norm_num [pySorted, List.insertionSort, List.orderedInsert]
  have hk : ((((pySorted [0, 10]).length : ℚ) - 1) * (95 / 100) : ℚ)
      = 19/20 := by
    rw [hs]; norm_num
  have hf : (⌊(19/20 : ℚ)⌋ : ℤ) = 0 := by norm_num
  have hc : (⌈(19/20 : ℚ)⌉ : ℤ) = 1 := by
    rw [Int.ceil_eq_iff]
    norm_num
  simp only [percentile, hk, hs, hf, hc]
  norm_num [hc, show Int.toNat 1 = 1 from rfl]

/-- The 99th percentile of [0, 10] interpolates to 9.9. -/
theorem percentile_BA99 : percentile [0, 10] 99 = 99/10 := by
  have hs : pySorted [0, 10] = [0, 10] := by
    norm_num [pySorted, List.insertionSort, List.orderedInsert]
  have hk : ((((pySorted [0, 10]).length : ℚ) - 1) * (99 / 100) : ℚ)
      = 99/100 := by
    rw [hs]; norm_num
  have hf : (⌊(99/100 : ℚ)⌋ : ℤ) = 0 := by norm_num
  have hc : (⌈(99/100 : ℚ)⌉ : ℤ) = 1 := by
    rw [Int.ceil_eq_iff]
    norm_num
  simp only [percentile, hk, hs, hf, hc]
  norm_num [hc, show Int.toNat 1 = 1 from rfl]

/-- `c9Engine`'s aggregate: B first (insertion order), then A. -/
theorem c9_aggregate :
    RiskEngine.aggregate c9Engine = [("B", aggB), ("A", aggA)] := by
  simp [RiskEngine.aggregate, c9Engine, mkAggregate, aggB, aggA, listMax,
    percentile_BA95, percentile_BA99, percentile_single]
  norm_num

/-- The unsorted summary rows for `c9Engine`: row B before row A. -/
theorem c9_rows :
    summaryRows [] (RiskEngine.aggregate c9Engine) = [rowB, rowA] := by
  rw [c9_aggregate]
  simp [summaryRows, rowB, rowA, aggB, aggA]

/-- Row B does not sort before row A: equal max, smaller avg. -/
theorem not_rowLe_BA : ¬ rowLe rowB rowA := by
  unfold rowLe
  simp [rowB, rowA]
  norm_num

/-- Claim C9: the exported summary is sorted by descending max, then
descending avg, then ascending asset id; in particular with equal max 10 and
averages 10 (asset A) versus 5 (asset B), A is placed first even though B was
inserted first. -/
theorem claimC9 :
    (∀ (eng : RiskEngine) (A : List Asset),
      List.Sorted rowLe (export_summary eng A)) ∧
    (export_summary c9Engine []).map SummaryRow.asset = ["A", "B"] := by
  constructor
  · exact export_summary_sorted
  · unfold export_summary
    rw [c9_rows]
    rw [List.insertionSort, List.insertionSort, List.insertionSort]
    rw [List.orderedInsert, List.orderedInsert]
    rw [if_neg not_rowLe_BA]
    simp [rowA, rowB]

/-- Claim C10: every ScoreResult produced from a fresh engine has a total
equal to the sum of its applied entries' scores, only non-zero scores are
recorded in `applied`, and the applied rule ids follow policy order (they form
a sublist of the policy's rule id list). -/
theorem claimC10 (eng : RiskEngine) (h0 : eng.results = [])
    (e' : RiskEngine) (h : eng.evaluate = some e') :
    ∀ r ∈ e'.results,
      r.score = (r.applied.map Applied.score).sum ∧
      (∀ en ∈ r.applied, en.score ≠ 0) ∧
      List.Sublist (r.applied.map Applied.rule)
        (eng.policy.rules.map Rule.id) := by
  obtain ⟨b, ba, hrun, he⟩ := evaluate_some eng e' h
  subst he
  rw [h0] at hrun
  intro r hr
  rcases runEvents_origin eng.assets eng.policy eng.events [] eng.by_asset b ba
      hrun r hr with h2 | ⟨e0, a0, _, _, t, ap, hev, hq⟩
  · simp at h2
  · subst hq
    exact evalRules_spec a0 e0 eng.policy.rules t ap hev

/-- Claim C10 witness: the invariants instantiated on the end-to-end
scenario's single result (188 = 93 + 40 + 55, applied ids in policy order). -/
theorem claimC10_wit :
    c4Res.score = (c4Res.applied.map Applied.score).sum ∧
    List.Sublist (c4Res.applied.map Applied.rule)
      (c4Engine.policy.rules.map Rule.id) :=
  ⟨(claimC10 c4Engine rfl c4Out c4_evaluate c4Res (by simp [c4Out])).1,
   (claimC10 c4Engine rfl c4Out c4_evaluate c4Res (by simp [c4Out])).2.2⟩
